import Mathlib

/-!
Shallow embedding of the obsidian-notion-database-sync plugin core:
the resilient remote client (`src/notion-client.ts`), the content tree
converter (`src/block-converter.ts`) and the sync orchestrator
(`src/database-freezer.ts`).  Network fetches are modelled functionally:
a paginated fetch of children/rows is represented by the list it returns,
and the random jitter source is an explicit parameter.
-/

set_option maxHeartbeats 1000000

namespace NotionSync

/-! ## Resilient remote client (`src/notion-client.ts`) -/

/-- An error thrown by a Notion API call: HTTP status plus the parsed
`retry-after` header value in seconds (`none` when the header is absent
or empty, i.e. falsy in the source). -/
structure ReqError where
  status : Nat
  retryAfterSecs : Option ℚ
deriving DecidableEq

/-- Constant `MAX_RETRIES = 5` from `notion-client.ts`. -/
def MAX_RETRIES : Nat := 5

/-- The retryable-status test from `notionRequest`:
`status === 429 || 500 || 502 || 503 || 504`. -/
def isRetryable (status : Nat) : Bool :=
  status == 429 || status == 500 || status == 502 || status == 503 || status == 504

/-- The delay computation inside `notionRequest`'s catch branch, for the
attempt numbered `attempt` (0-based) and jitter source `rand`
(modelling `Math.random()`, a value in `[0, 1)`):

```
if (status === 429) delay = retryAfter ? parseFloat(retryAfter) * 1000
                                       : 1000 * Math.pow(2, attempt);
else delay = 1000 * Math.pow(2, attempt);
const jitter = delay * 0.25 * (Math.random() * 2 - 1);
delay = Math.min(delay + jitter, 30000);
``` -/
def computeDelay (e : ReqError) (attempt : Nat) (rand : ℚ) : ℚ :=
  let delay : ℚ :=
    if e.status == 429 then
      match e.retryAfterSecs with
      | some ra => ra * 1000
      | none => 1000 * 2 ^ attempt
    else 1000 * 2 ^ attempt
  let jitter := delay * (25 / 100) * (rand * 2 - 1)
  min (delay + jitter) 30000

/-- Result of one attempt of the wrapped operation `fn`. -/
inductive Attempt (T : Type) where
  | ok (value : T)
  | err (e : ReqError)

/-- Terminal outcome of `notionRequest`. -/
inductive ReqOutcome (T : Type) where
  | success (value : T)
  | failure (e : ReqError)
  | exhausted

/-- Trace of one `notionRequest` run: the outcome, how many attempts were
made, and the sleeps performed between attempts as
(attempt index, error that triggered the sleep, delay in ms). -/
structure ReqTrace (T : Type) where
  outcome : ReqOutcome T
  attemptsMade : Nat
  sleeps : List (Nat × ReqError × ℚ)

/-- The retry loop of `notionRequest`.  The `for` loop
`for (attempt = 0; attempt < MAX_RETRIES; attempt++)` is modelled with a
fuel argument that starts at `MAX_RETRIES` and counts the remaining
iterations (so `attempt + fuel = MAX_RETRIES` at the top-level call);
`fn attempt` is the outcome of the `attempt`-th call of the wrapped
operation and `rand attempt` the `Math.random()` value drawn for it. -/
def notionRequestGo {T : Type} (fn : Nat → Attempt T) (rand : Nat → ℚ) :
    Nat → Nat → ReqTrace T
  | attempt, 0 => { outcome := .exhausted, attemptsMade := attempt, sleeps := [] }
  | attempt, fuel + 1 =>
    match fn attempt with
    | .ok v => { outcome := .success v, attemptsMade := attempt + 1, sleeps := [] }
    | .err e =>
      if isRetryable e.status && decide (attempt < MAX_RETRIES - 1) then
        let d := computeDelay e attempt (rand attempt)
        let t := notionRequestGo fn rand (attempt + 1) fuel
        { t with sleeps := (attempt, e, d) :: t.sleeps }
      else { outcome := .failure e, attemptsMade := attempt + 1, sleeps := [] }

/-- Model of `notionRequest` from `notion-client.ts`. -/
def notionRequest {T : Type} (fn : Nat → Attempt T) (rand : Nat → ℚ) : ReqTrace T :=
  notionRequestGo fn rand 0 MAX_RETRIES

/-! ## Identifier normalizer (`normalizeNotionId` in `src/notion-client.ts`).
Strings are modelled as `List Char`. -/

/-- One character of the case-insensitive hex class `[a-f0-9]`. -/
def isHexChar (c : Char) : Bool :=
  ('a' ≤ c && c ≤ 'f') || ('A' ≤ c && c ≤ 'F') || ('0' ≤ c && c ≤ '9')

/-- Model of `String.prototype.trim()`. -/
def trimChars (l : List Char) : List Char :=
  ((l.dropWhile Char.isWhitespace).reverse.dropWhile Char.isWhitespace).reverse

/-- Model of the regex search `raw.match(/([a-f0-9]{32})/i)`: the leftmost run of 32
consecutive hex characters, if any. -/
def findHexMatch (l : List Char) : Option (List Char) :=
  ((List.range (l.length + 1)).find? (fun i =>
      ((l.drop i).take 32).length == 32 && ((l.drop i).take 32).all isHexChar)).map
    (fun i => (l.drop i).take 32)

/-- Model of `raw.replace` with the global dash regex: removes every `-`. -/
def stripDashes (l : List Char) : List Char := l.filter (fun c => c ≠ '-')

/-- Model of the validation test `/^[a-f0-9]{32}$/i.test(hex)`. -/
def isHex32 (l : List Char) : Bool := l.length == 32 && l.all isHexChar

/-- Format as UUID 8-4-4-4-12:
`[hex.slice(0,8), hex.slice(8,12), hex.slice(12,16), hex.slice(16,20), hex.slice(20,32)].join("-")`. -/
def formatUuid (hex : List Char) : List Char :=
  hex.take 8 ++ '-' :: (hex.drop 8).take 4 ++ '-' :: (hex.drop 12).take 4
    ++ '-' :: (hex.drop 16).take 4 ++ '-' :: (hex.drop 20).take 12

/-- Model of `normalizeNotionId` from `notion-client.ts`; `none` models a thrown
error. -/
def normalizeNotionId (input : List Char) : Option (List Char) :=
  let raw := trimChars input
  let raw? : Option (List Char) :=
    if "http".data.isPrefixOf raw then findHexMatch raw else some raw
  match raw? with
  | none => none
  | some raw =>
    let hex := stripDashes raw
    if isHex32 hex then some (formatUuid hex) else none

/-! ## Rich text (`convertRichText` and friends in `src/block-converter.ts`) -/

/-- The annotation set of one rich text item. -/
structure Annotations where
  bold : Bool
  italic : Bool
  strikethrough : Bool
  underline : Bool
  code : Bool
  color : String
deriving DecidableEq

/-- The payload of a `mention` rich text item. -/
inductive Mention where
  | page (id : String)
  | database (id : String)
  | date (start : String) (stop : Option String)
  | user
  | linkPreview (url : String)
  | other
deriving DecidableEq

/-- The discriminated kind of a rich text item: plain `text` (with an
optional link), `equation`, or `mention`. -/
inductive RichTextKind where
  | text (content : String) (link : Option String)
  | equation (expression : String)
  | mention (m : Mention)
deriving DecidableEq

/-- One element of a Notion rich text array. -/
structure RichTextItem where
  kind : RichTextKind
  annotations : Annotations
  plainText : String
deriving DecidableEq

/-- Model of `convertMention` from `block-converter.ts`. -/
def convertMention (item : RichTextItem) : String :=
  match item.kind with
  | .mention m =>
    match m with
    | .page id => "[[notion-id: " ++ id ++ "]]"
    | .database id => "[[notion-id: " ++ id ++ "]]"
    | .date start stop =>
      match stop with
      | some e => start ++ " → " ++ e
      | none => start
    | .user => "@" ++ item.plainText
    | .linkPreview url => "[" ++ item.plainText ++ "](" ++ url ++ ")"
    | .other => item.plainText
  | _ => item.plainText

/-- Model of `convertRichTextItem` from `block-converter.ts`: render the base text
and wrap it with a marker for each active annotation, in the source's
fixed order (code fence innermost, then bold, italic, strikethrough,
underline, highlight). -/
def convertRichTextItem (item : RichTextItem) : String :=
  let text :=
    match item.kind with
    | .equation expr => "$" ++ expr ++ "$"
    | .mention _ => convertMention item
    | .text content link =>
      match link with
      | some url => "[" ++ content ++ "](" ++ url ++ ")"
      | none => content
  let a := item.annotations
  let text := if a.code then "`" ++ text ++ "`" else text
  let text := if a.bold then "**" ++ text ++ "**" else text
  let text := if a.italic then "*" ++ text ++ "*" else text
  let text := if a.strikethrough then "~~" ++ text ++ "~~" else text
  let text := if a.underline then "<u>" ++ text ++ "</u>" else text
  let text :=
    if a.color != "default" && a.color.endsWith "_background" then "==" ++ text ++ "=="
    else text
  text

/-- Model of `convertRichText` from `block-converter.ts`. -/
def convertRichText (items : List RichTextItem) : String :=
  String.join (items.map convertRichTextItem)

/-! ## Content tree converter (`src/block-converter.ts`).
A `Block` carries its type tag with type-specific payload, the
`has_children` flag, and — since children are fetched separately by id —
the list of children that `fetchAllChildren(client, block.id)` would
return. -/

/-- The `external`/`file` union used by media blocks: the source picks
`external.url` when `type === "external"` and `file.url` otherwise. -/
inductive MediaSource where
  | external (url : String)
  | file (url : String)
deriving DecidableEq

/-- Model of the URL selection `type === "external" ? external.url : file.url`. -/
def MediaSource.url : MediaSource → String
  | .external u => u
  | .file u => u

/-- The payload of a `link_to_page` block. -/
inductive LinkTarget where
  | pageId (id : String)
  | databaseId (id : String)
  | other
deriving DecidableEq

/-- A callout icon, as consumed by `emojiToCalloutType`. -/
structure IconData where
  type : String
  emoji : Option String
deriving DecidableEq

/-- The emoji-to-callout lookup table in `emojiToCalloutType`. -/
def emojiCalloutMap : List (String × String) :=
  [("💡", "tip"), ("⚠️", "warning"), ("❗", "danger"), ("❓", "question"),
   ("📝", "note"), ("🔥", "danger"), ("✅", "success"), ("📌", "important"),
   ("🚨", "danger"), ("💀", "danger"), ("🐛", "bug"), ("📖", "quote"),
   ("💬", "quote"), ("🗣️", "quote"), ("ℹ️", "info"), ("📋", "abstract"),
   ("🎯", "example"), ("🔗", "info")]

/-- Model of `emojiToCalloutType` from `block-converter.ts`; `info` is the default
for a missing icon, a non-emoji icon, an empty emoji, or an unmapped
emoji. -/
def emojiToCalloutType (icon : Option IconData) : String :=
  match icon with
  | none => "info"
  | some ic =>
    if ic.type != "emoji" then "info"
    else
      match ic.emoji with
      | none => "info"
      | some e =>
        if e == "" then "info"
        else ((emojiCalloutMap.find? (fun p => p.1 == e)).map (fun p => p.2)).getD "info"

/-- The discriminated block type tag with its type-specific payload,
mirroring the `switch (block.type)` arms of `convertBlock`. -/
inductive BlockType where
  | paragraph (richText : List RichTextItem)
  | heading1 (richText : List RichTextItem) (isToggleable : Bool)
  | heading2 (richText : List RichTextItem) (isToggleable : Bool)
  | heading3 (richText : List RichTextItem) (isToggleable : Bool)
  | bulletedListItem (richText : List RichTextItem)
  | numberedListItem (richText : List RichTextItem)
  | toDo (richText : List RichTextItem) (checked : Bool)
  | code (richText : List RichTextItem) (language : String)
  | quote (richText : List RichTextItem)
  | callout (richText : List RichTextItem) (icon : Option IconData)
  | equation (expression : String)
  | divider
  | toggle (richText : List RichTextItem)
  | childPage (title : String)
  | childDatabase (title : String)
  | image (source : MediaSource) (caption : List RichTextItem)
  | bookmark (url : String) (caption : List RichTextItem)
  | embed (url : String) (caption : List RichTextItem)
  | video (source : MediaSource) (caption : List RichTextItem)
  | file (source : MediaSource) (caption : List RichTextItem)
  | pdf (source : MediaSource) (caption : List RichTextItem)
  | audio (source : MediaSource) (caption : List RichTextItem)
  | table
  | tableRow (cells : List (List RichTextItem))
  | columnList
  | column
  | linkToPage (target : LinkTarget)
  | syncedBlock
  | tableOfContents
  | breadcrumb
  | unsupported (typeName : String)
deriving DecidableEq

/-- A content node: type tag, `has_children` flag, and the children that
fetching by its id would return. -/
inductive Block where
  | mk (ty : BlockType) (hasChildren : Bool) (children : List Block)

/-- Type tag accessor. -/
def Block.ty : Block → BlockType
  | .mk t _ _ => t

/-- Accessor for `has_children`. -/
def Block.hasChildren : Block → Bool
  | .mk _ h _ => h

/-- Children accessor (the fetched child list). -/
def Block.children : Block → List Block
  | .mk _ _ c => c

/-- Model of `"    ".repeat(indentLevel)`. -/
def strRepeat (s : String) (n : Nat) : String :=
  String.join (List.replicate n s)

/-- Whether a block has the `numbered_list_item` type tag. -/
def isNumberedItem (b : Block) : Bool :=
  match b.ty with
  | .numberedListItem _ => true
  | _ => false

/-- Prefix every line with a blockquote marker, as in
`s.split("\n").map(line => "> " + line).join("\n")`. -/
def quoteLines (s : String) : String :=
  String.intercalate "\n" ((s.splitOn "\n").map (fun line => "> " ++ line))

/-- Model of `convertTable`'s row loop: `i` is the index within the fetched rows;
non-`table_row` children are skipped, and the first fetched row (index 0,
if it is a `table_row`) is followed by a `---` separator with one cell
per header cell. -/
def tableLines : List Block → Nat → List String
  | [], _ => []
  | r :: rest, i =>
    match r.ty with
    | .tableRow cells =>
      let cellStrs := cells.map convertRichText
      let line := "| " ++ String.intercalate " | " cellStrs ++ " |"
      (if i = 0 then
        [line, "| " ++ String.intercalate " | " (cellStrs.map (fun _ => "---")) ++ " |"]
       else [line]) ++ tableLines rest (i + 1)
    | _ => tableLines rest (i + 1)

/-- Model of `convertTable` from `block-converter.ts`, over the fetched child rows
of the table block: empty fetch renders the empty string. -/
def convertTable (rows : List Block) : String :=
  if rows.length = 0 then "" else String.intercalate "\n" (tableLines rows 0)

mutual

/-- The body of `convertBlocksToMarkdown`'s loop: returns the list of
per-block rendered lines, threading the mutable `numberedIndex` counter
exactly as the source does (reset to 1 on any non-`numbered_list_item`
block, increment after rendering a `numbered_list_item`). -/
def convertBlocksGo (blocks : List Block) (indentLevel : Nat) (numberedIndex : Nat) :
    List String :=
  match blocks with
  | [] => []
  | b :: rest =>
    let ni := if isNumberedItem b then numberedIndex else 1
    let line := convertBlock b indentLevel ni
    let next := if isNumberedItem b then ni + 1 else ni
    line :: convertBlocksGo rest indentLevel next

/-- Model of `convertBlocksToMarkdown` from `block-converter.ts`: render each block
and join with newlines. -/
def convertBlocksToMarkdown (blocks : List Block) (indentLevel : Nat) : String :=
  String.intercalate "\n" (convertBlocksGo blocks indentLevel 1)

/-- Model of `maybeConvertChildren` from `block-converter.ts`: nothing unless
`has_children`; otherwise convert the fetched children and prefix the
result with a newline when non-empty. -/
def maybeConvertChildren (hasChildren : Bool) (children : List Block)
    (indentLevel : Nat) : String :=
  if hasChildren = false then ""
  else
    let childMd := convertBlocksToMarkdown children indentLevel
    if childMd = "" then "" else "\n" ++ childMd

/-- The `column_list` loop of `convertColumnList`: skip non-`column`
children, convert each column's fetched children independently, keep the
non-empty renderings. -/
def columnParts (cols : List Block) (indentLevel : Nat) : List String :=
  match cols with
  | [] => []
  | .mk .column _ ch :: rest =>
    let md := convertBlocksToMarkdown ch indentLevel
    if md = "" then columnParts rest indentLevel else md :: columnParts rest indentLevel
  | _ :: rest => columnParts rest indentLevel

/-- Model of `convertColumnList` from `block-converter.ts`: columns joined with a
horizontal-rule separator. -/
def convertColumnList (cols : List Block) (indentLevel : Nat) : String :=
  String.intercalate "\n\n---\n\n" (columnParts cols indentLevel)

/-- Model of `convertBlock` from `block-converter.ts`: dispatch on the type tag. -/
def convertBlock (b : Block) (indentLevel : Nat) (numberedIndex : Nat) : String :=
  let indent := strRepeat "    " indentLevel
  match b with
  | .mk (.paragraph rt) hc ch =>
    convertRichText rt ++ maybeConvertChildren hc ch indentLevel
  | .mk (.heading1 rt tog) hc ch =>
    let text := convertRichText rt
    if tog then "> [!note]+ # " ++ text ++ maybeConvertChildren hc ch indentLevel
    else "# " ++ text
  | .mk (.heading2 rt tog) hc ch =>
    let text := convertRichText rt
    if tog then "> [!note]+ ## " ++ text ++ maybeConvertChildren hc ch indentLevel
    else "## " ++ text
  | .mk (.heading3 rt tog) hc ch =>
    let text := convertRichText rt
    if tog then "> [!note]+ ### " ++ text ++ maybeConvertChildren hc ch indentLevel
    else "### " ++ text
  | .mk (.bulletedListItem rt) hc ch =>
    indent ++ "- " ++ convertRichText rt ++ maybeConvertChildren hc ch (indentLevel + 1)
  | .mk (.numberedListItem rt) hc ch =>
    indent ++ toString numberedIndex ++ ". " ++ convertRichText rt
      ++ maybeConvertChildren hc ch (indentLevel + 1)
  | .mk (.toDo rt checked) hc ch =>
    let check := if checked then "x" else " "
    indent ++ "- [" ++ check ++ "] " ++ convertRichText rt
      ++ maybeConvertChildren hc ch (indentLevel + 1)
  | .mk (.code rt language) _ _ =>
    let lang := if language == "plain text" then "" else language
    "```" ++ lang ++ "\n" ++ convertRichText rt ++ "\n```"
  | .mk (.quote rt) hc ch =>
    quoteLines (convertRichText rt ++ maybeConvertChildren hc ch indentLevel)
  | .mk (.callout rt icon) hc ch =>
    let calloutType := emojiToCalloutType icon
    let body := convertRichText rt ++ maybeConvertChildren hc ch indentLevel
    "> [!" ++ calloutType ++ "]\n" ++ quoteLines body
  | .mk (.equation expr) _ _ => "$$\n" ++ expr ++ "\n$$"
  | .mk .divider _ _ => "---"
  | .mk (.toggle rt) hc ch =>
    "> [!note]+ " ++ convertRichText rt ++ "\n"
      ++ quoteLines (maybeConvertChildren hc ch indentLevel)
  | .mk (.childPage title) _ _ => "[[" ++ title ++ "]]"
  | .mk (.childDatabase title) _ _ => "<!-- child database: " ++ title ++ " -->"
  | .mk (.image src caption) _ _ =>
    let cap := convertRichText caption
    if cap != "" then "![" ++ cap ++ "](" ++ src.url ++ ")"
    else "![image](" ++ src.url ++ ")"
  | .mk (.bookmark url caption) _ _ =>
    let cap := convertRichText caption
    if cap != "" then "[" ++ cap ++ "](" ++ url ++ ")" else url
  | .mk (.embed url caption) _ _ =>
    let cap := convertRichText caption
    if cap != "" then "[" ++ cap ++ "](" ++ url ++ ")" else url
  | .mk (.video src caption) _ _ =>
    let cap := convertRichText caption
    if cap != "" then "[" ++ cap ++ "](" ++ src.url ++ ")" else src.url
  | .mk (.file src caption) _ _ =>
    let cap := convertRichText caption
    if cap != "" then "[" ++ cap ++ "](" ++ src.url ++ ")" else src.url
  | .mk (.pdf src caption) _ _ =>
    let cap := convertRichText caption
    if cap != "" then "[" ++ cap ++ "](" ++ src.url ++ ")" else src.url
  | .mk (.audio src caption) _ _ =>
    let cap := convertRichText caption
    if cap != "" then "[" ++ cap ++ "](" ++ src.url ++ ")" else src.url
  | .mk .table _ ch => convertTable ch
  | .mk .columnList _ ch => convertColumnList ch indentLevel
  | .mk .column _ _ => ""
  | .mk (.tableRow _) _ _ => ""
  | .mk (.linkToPage target) _ _ =>
    match target with
    | .pageId id => "[[notion-id: " ++ id ++ "]]"
    | .databaseId id => "<!-- linked database: " ++ id ++ " -->"
    | .other => ""
  | .mk .syncedBlock hc ch => maybeConvertChildren hc ch indentLevel
  | .mk .tableOfContents _ _ => ""
  | .mk .breadcrumb _ _ => ""
  | .mk (.unsupported _) _ _ => ""

end

/-- The line `convertBlock` renders for a `numbered_list_item` with
counter value `n`. -/
def renderNumbered (rt : List RichTextItem) (hc : Bool) (ch : List Block)
    (indentLevel n : Nat) : String :=
  strRepeat "    " indentLevel ++ toString n ++ ". " ++ convertRichText rt
    ++ maybeConvertChildren hc ch (indentLevel + 1)

/-- A childless `table_row` block with the given cells. -/
def rowBlock (cells : List (List RichTextItem)) : Block :=
  .mk (.tableRow cells) false []

/-- The number rendered for position `i`: one more than the length of the
unbroken run of `numbered_list_item` blocks immediately preceding `i`. -/
def runCounter (blocks : List Block) (i : Nat) : Nat :=
  ((blocks.take i).reverse.takeWhile isNumberedItem).length + 1

/-! ## Sync orchestrator (`src/database-freezer.ts`).
Vault files and the metadata cache are modelled as data; the per-entry
writer `writeDatabaseEntry` (in `src/page-writer.ts`) is an abstract
fallible function supplied by the environment, since the orchestrator
only inspects its `created`/`updated` status or the thrown message. -/

/-- One fetched database row (`PageObjectResponse`) as consumed by the
orchestrator: its id and `last_edited_time`. -/
structure Entry where
  id : String
  lastEditedTime : String
deriving DecidableEq

/-- One child of the sync folder as seen by `scanLocalFiles`: whether it
is a markdown `TFile`, its cached frontmatter `notion-id` and
`notion-last-edited` values (absent = `none`), and its raw content. -/
structure LocalFile where
  isMd : Bool
  notionId : Option String
  storedEdited : Option String
  content : List Char
deriving DecidableEq

/-- JavaScript `Map.prototype.set`: replace in place when the key exists,
else append (insertion order preserved). -/
def mapSet (m : List (String × LocalFile)) (id : String) (f : LocalFile) :
    List (String × LocalFile) :=
  if m.any (fun p => p.1 == id) then
    m.map (fun p => if p.1 == id then (id, f) else p)
  else m ++ [(id, f)]

/-- Model of `Map.prototype.get`. -/
def mapGet (m : List (String × LocalFile)) (id : String) : Option LocalFile :=
  (m.find? (fun p => p.1 == id)).map (fun p => p.2)

/-- Model of `scanLocalFiles` from `database-freezer.ts`: index the folder's
markdown files by their frontmatter `notion-id` (skipped when the value
is absent or falsy). -/
def scanLocalFiles (files : List LocalFile) : List (String × LocalFile) :=
  files.foldl (fun m f =>
    if f.isMd then
      match f.notionId with
      | some nid => if nid == "" then m else mapSet m nid f
      | none => m
    else m) []

/-- JavaScript truthiness test `!storedEdited` on a string-or-absent
frontmatter value: true for absent and for the empty string. -/
def isFalsyStr : Option String → Bool
  | none => true
  | some s => s == ""

/-- The per-row staleness test of `refreshDatabase`'s diff pass:
stale when no local file exists, or
`!storedEdited || storedEdited !== entry.last_edited_time`. -/
def isStaleEntry (localFiles : List (String × LocalFile)) (e : Entry) : Bool :=
  match mapGet localFiles e.id with
  | none => true
  | some f => isFalsyStr f.storedEdited || f.storedEdited != some e.lastEditedTime

/-- The diff loop of `refreshDatabase`: split the fetched rows into the
stale list (in fetch order) and the skipped count. -/
def diffPass (localFiles : List (String × LocalFile)) :
    List Entry → List Entry × Nat
  | [] => ([], 0)
  | e :: rest =>
    let r := diffPass localFiles rest
    if isStaleEntry localFiles e then (e :: r.1, r.2) else (r.1, r.2 + 1)

/-- Status from `writeDatabaseEntry` for a successfully written row. -/
inductive WriteStatus where
  | created
  | updated
deriving DecidableEq

/-- The per-row import loop shared by `freshDatabaseImport` and
`refreshDatabase`: each row is written through the abstract writer; a
success bumps `created` or `updated`, a thrown error is caught at the
per-row boundary, bumps `failed`, and records
`Entry (id): (message)` — processing always continues.  Returns
(created, updated, failed, errors). -/
def processEntries (write : Entry → Except String WriteStatus) :
    List Entry → Nat × Nat × Nat × List String
  | [] => (0, 0, 0, [])
  | e :: rest =>
    let r := processEntries write rest
    match write e with
    | .ok .created => (r.1 + 1, r.2.1, r.2.2.1, r.2.2.2)
    | .ok .updated => (r.1, r.2.1 + 1, r.2.2.1, r.2.2.2)
    | .error msg => (r.1, r.2.1, r.2.2.1 + 1, ("Entry " ++ e.id ++ ": " ++ msg) :: r.2.2.2)

/-- The `notion-deleted: true` flag string. -/
def deletedFlag : List Char := "notion-deleted: true".data

/-- Model of `content.includes(pat)`: whether `pat` occurs as a contiguous
subsequence of `hay`. -/
def containsSeq (hay pat : List Char) : Bool :=
  (List.range (hay.length + 1)).any (fun i => pat.isPrefixOf (hay.drop i))

/-- Model of `content.indexOf(pat, start)`: index of the first occurrence of `pat`
at or after position `start`. -/
def indexOfFrom (hay pat : List Char) (start : Nat) : Option Nat :=
  (List.range (hay.length + 1)).find? (fun i =>
    decide (start ≤ i) && pat.isPrefixOf (hay.drop i))

/-- Model of `markAsDeleted` from `database-freezer.ts` (the content
transformation): no-op when the flag is already present; otherwise insert
`notion-deleted: true` before the frontmatter's closing `---`, or prepend
a fresh frontmatter block when none is found. -/
def markAsDeleted (content : List Char) : List Char :=
  if containsSeq content deletedFlag then content
  else if "---\n".data.isPrefixOf content then
    match indexOfFrom content "\n---".data 3 with
    | some endIdx =>
      content.take endIdx ++ "\nnotion-deleted: true".data ++ content.drop endIdx
    | none => "---\nnotion-deleted: true\n---\n".data ++ content
  else "---\nnotion-deleted: true\n---\n".data ++ content

/-- The deletion-reconciliation loop of `refreshDatabase`: every indexed
local file whose id is not among the processed ids has `markAsDeleted`
applied in place and bumps the `deleted` count; no file is ever removed.
Returns the files (id, content after the pass) and the count. -/
def reconcileDeletions (files : List (String × List Char)) (processedIds : List String) :
    List (String × List Char) × Nat :=
  match files with
  | [] => ([], 0)
  | (id, content) :: rest =>
    let r := reconcileDeletions rest processedIds
    if processedIds.contains id then ((id, content) :: r.1, r.2)
    else ((id, markAsDeleted content) :: r.1, r.2 + 1)

/-- Environment of one `refreshDatabase` run: the fetched rows, the sync
folder's children, and the abstract per-row writer. -/
structure RefreshEnv where
  entries : List Entry
  files : List LocalFile
  write : Entry → Except String WriteStatus

/-- Result of one `refreshDatabase` run (the returned
`DatabaseSyncResult` counts and errors), extended with the reconciled
file contents and the ids actually passed to the writer, so that the
write/no-write and marking behavior is observable. -/
structure RefreshResult where
  total : Nat
  created : Nat
  updated : Nat
  skipped : Nat
  deleted : Nat
  failed : Nat
  errors : List String
  reconciledFiles : List (String × List Char)
  writtenIds : List String

/-- Model of `refreshDatabase` from `database-freezer.ts`: diff pass over the
fetched rows, import of the stale rows only, then deletion
reconciliation over the scanned local files. -/
def refreshDatabaseModel (env : RefreshEnv) : RefreshResult :=
  let entries := env.entries
  let localFiles := scanLocalFiles env.files
  let processedIds := entries.map (fun e => e.id)
  let d := diffPass localFiles entries
  let staleEntries := d.1
  let skippedCount := d.2
  let p := processEntries env.write staleEntries
  let rec' := reconcileDeletions (localFiles.map (fun q => (q.1, q.2.content))) processedIds
  { total := entries.length, created := p.1, updated := p.2.1,
    skipped := skippedCount, deleted := rec'.2, failed := p.2.2.1,
    errors := p.2.2.2, reconciledFiles := rec'.1,
    writtenIds := staleEntries.map (fun e => e.id) }

/-- One markdown file of the whole vault as seen by
`scanForExistingSync`: its frontmatter `notion-database-id` and its
parent folder path (`none` models a null parent). -/
structure VaultMdFile where
  notionDatabaseId : Option String
  parentPath : Option String
deriving DecidableEq

/-- Model of `scanForExistingSync` from `database-freezer.ts`: the parent folder
path of the first markdown file whose frontmatter `notion-database-id`
strictly equals the database id (`file.parent?.path || null`). -/
def scanForExistingSync (files : List VaultMdFile) (databaseId : String) : Option String :=
  match files.find? (fun f => f.notionDatabaseId == some databaseId) with
  | none => none
  | some f =>
    match f.parentPath with
    | some p => if p == "" then none else some p
    | none => none

/-- The filename-invalid character class of
`dbTitle.replace` in `freshDatabaseImport`. -/
def invalidFileChar (c : Char) : Bool :=
  c == '\\' || c == '/' || c == ':' || c == '*' || c == '?' || c == '\"'
    || c == '<' || c == '>' || c == '|'

/-- The safe folder name computation of `freshDatabaseImport`: replace
invalid characters with `-`, trim, default to `Untitled Database` when
empty. -/
def safeFolderName (title : String) : String :=
  let replaced := String.mk (title.data.map (fun c => if invalidFileChar c then '-' else c))
  let trimmed := String.mk (trimChars replaced.data)
  if trimmed == "" then "Untitled Database" else trimmed

/-- Observable side effects of one `freshDatabaseImport` run, in
execution order. -/
inductive Effect where
  | retrieveDatabase
  | retrieveDataSource
  | createFolder (path : String)
  | writeBaseFile (path : String)
  | queryRows
  | writeRow (id : String)
deriving DecidableEq

/-- Environment of one `freshDatabaseImport` run. -/
structure FreshEnv where
  vaultFiles : List VaultMdFile
  databaseTitle : List RichTextItem
  dataSources : List String
  entries : List Entry
  write : Entry → Except String WriteStatus
  outputFolder : String
  databaseId : String

/-- Result of one successful `freshDatabaseImport` run. -/
structure FreshResult where
  title : String
  folderPath : String
  total : Nat
  created : Nat
  updated : Nat
  skipped : Nat
  deleted : Nat
  failed : Nat
  errors : List String

/-- Model of `freshDatabaseImport` from `database-freezer.ts`: retrieve the
database, abort on an existing synced folder, abort on a missing data
source, then create the folder, generate the base file, query all rows
and import every row.  The second component is the ordered effect
trace. -/
def freshDatabaseImportModel (env : FreshEnv) : Except String FreshResult × List Effect :=
  let t := convertRichText env.databaseTitle
  let dbTitle := if t == "" then "Untitled Database" else t
  match scanForExistingSync env.vaultFiles env.databaseId with
  | some existingFolder =>
    (.error ("Already synced in folder: " ++ existingFolder ++ ". Use Re-sync."),
     [.retrieveDatabase])
  | none =>
    let safeName := safeFolderName dbTitle
    let folderPath := env.outputFolder ++ "/" ++ safeName
    match env.dataSources with
    | [] =>
      (.error "This appears to be a linked database, which is not supported by the Notion API.",
       [.retrieveDatabase])
    | _ :: _ =>
      let p := processEntries env.write env.entries
      (.ok { title := dbTitle, folderPath := folderPath, total := env.entries.length,
             created := p.1, updated := p.2.1, skipped := 0, deleted := 0,
             failed := p.2.2.1, errors := p.2.2.2 },
       [.retrieveDatabase, .retrieveDataSource, .createFolder folderPath,
        .writeBaseFile folderPath, .queryRows]
         ++ env.entries.map (fun e => Effect.writeRow e.id))

/-! ## Concrete inputs used by witnesses -/

/-- A wrapped operation that is rate-limited with a 2-second retry hint on
its first attempt and succeeds afterwards. -/
def fnHint : Nat → Attempt Unit :=
  fun n => if n = 0 then .err ⟨429, some 2⟩ else .ok ()

/-- A wrapped operation that always fails with a 500. -/
def fnServer : Nat → Attempt Unit := fun _ => .err ⟨500, none⟩

/-- A jitter source that always draws 1/2 (zero jitter). -/
def randHalf : Nat → ℚ := fun _ => 1 / 2

/-- A plain-text rich text item with no annotations. -/
def mkPlainText (s : String) : RichTextItem :=
  ⟨.text s none, ⟨false, false, false, false, false, "default"⟩, s⟩

/-- A childless numbered list item block. -/
def numBlock (s : String) : Block := .mk (.numberedListItem [mkPlainText s]) false []

/-- A childless bulleted list item block. -/
def bulBlock (s : String) : Block := .mk (.bulletedListItem [mkPlainText s]) false []

/-- The block sequence [numbered, numbered, bulleted, numbered] from the
spec's numbered-list-reset test. -/
def resetBlocks : List Block :=
  [numBlock "a", numBlock "b", bulBlock "c", numBlock "d"]

/-- A refresh environment with one fetched row, one matching unchanged
local file, one stale local file and one orphaned local file. -/
def envR : RefreshEnv where
  entries := [⟨"p1", "2024-01-01T00:00:00.000Z"⟩, ⟨"p2", "2024-02-02T00:00:00.000Z"⟩]
  files :=
    [⟨true, some "p1", some "2024-01-01T00:00:00.000Z", "---\nnotion-id: p1\n---\nbody".data⟩,
     ⟨true, some "p2", some "2023-12-31T00:00:00.000Z", "---\nnotion-id: p2\n---\nbody".data⟩,
     ⟨true, some "p3", some "2023-11-30T00:00:00.000Z", "---\nnotion-id: p3\n---\nbody".data⟩]
  write := fun e => if e.id == "p2" then .error "boom" else .ok .updated

/-- A fresh-import environment whose vault already contains a file synced
from the same database. -/
def envFConflict : FreshEnv where
  vaultFiles := [⟨some "db1", some "Notion/My DB"⟩]
  databaseTitle := [mkPlainText "My DB"]
  dataSources := ["ds1"]
  entries := [⟨"p1", "2024-01-01T00:00:00.000Z"⟩]
  write := fun _ => .ok .created
  outputFolder := "Notion"
  databaseId := "db1"

/-- A fresh-import environment with no conflicting vault file and one row
whose write fails. -/
def envFOk : FreshEnv where
  vaultFiles := [⟨some "other-db", some "Notion/Other"⟩]
  databaseTitle := [mkPlainText "My DB"]
  dataSources := ["ds1"]
  entries := [⟨"p1", "2024-01-01T00:00:00.000Z"⟩, ⟨"p2", "2024-02-02T00:00:00.000Z"⟩]
  write := fun e => if e.id == "p1" then .error "boom" else .ok .created
  outputFolder := "Notion"
  databaseId := "db1"

/-- Input of 32 hex characters, a valid raw Notion id. -/
def rawId32 : List Char := "0123456789abcdef0123456789abcdef".data

/-- The result `envFOk`'s fresh import returns: one failed row recorded
with its id, one created row, and the run completing normally. -/
def rFOk : FreshResult where
  title := "My DB"
  folderPath := "Notion/My DB"
  total := 2
  created := 1
  updated := 0
  skipped := 0
  deleted := 0
  failed := 1
  errors := ["Entry p1: boom"]

/-! ## Theorems: resilient remote client -/

/-- Every sleep recorded by the retry loop was computed by `computeDelay`
for its own attempt index, that index admits a further retry
(`attempt < MAX_RETRIES - 1`), and the total number of attempts is
bounded by the remaining fuel. -/
theorem notionRequestGo_spec {T : Type} (fn : Nat → Attempt T) (rand : Nat → ℚ) :
    ∀ (fuel attempt : Nat),
      (notionRequestGo fn rand attempt fuel).attemptsMade ≤ attempt + fuel ∧
      (∀ k e d, (k, e, d) ∈ (notionRequestGo fn rand attempt fuel).sleeps →
        d = computeDelay e k (rand k) ∧ k < MAX_RETRIES - 1) := by
  intro fuel
  induction fuel with
  | zero =>
    intro attempt
    refine ⟨by simp [notionRequestGo], ?_⟩
    intro k e d h
    simp [notionRequestGo] at h
  | succ n ih =>
    intro attempt
    cases hfn : fn attempt with
    | ok v =>
      refine ⟨?_, ?_⟩
      · simp only [notionRequestGo, hfn]
        omega
      · intro k e d h
        simp only [notionRequestGo, hfn] at h
        simp at h
    | err e =>
      by_cases hc : (isRetryable e.status && decide (attempt < MAX_RETRIES - 1)) = true
      · refine ⟨?_, ?_⟩
        · simp only [notionRequestGo, hfn, if_pos hc]
          have := (ih (attempt + 1)).1
          omega
        · intro k e' d h
          simp only [notionRequestGo, hfn, if_pos hc, List.mem_cons] at h
          rcases h with h | h
          · injection h with h1 h2
            injection h2 with h3 h4
            subst h1; subst h3; subst h4
            rw [Bool.and_eq_true] at hc
            exact ⟨rfl, of_decide_eq_true hc.2⟩
          · exact (ih (attempt + 1)).2 k e' d h
      · refine ⟨?_, ?_⟩
        · simp only [notionRequestGo, hfn, if_neg hc]
          omega
        · intro k e' d h
          simp only [notionRequestGo, hfn, if_neg hc] at h
          simp at h

/-- In the no-hint case (non-429 status, or 429 without a `retry-after`
header) the computed delay is the nominal exponential backoff plus its
jitter, capped at 30000. -/
theorem computeDelay_noHint (e : ReqError) (k : Nat) (r : ℚ)
    (hno : e.status ≠ 429 ∨ e.retryAfterSecs = none) :
    computeDelay e k r =
      min (1000 * 2 ^ k + 1000 * 2 ^ k * (25 / 100) * (r * 2 - 1)) 30000 := by
  rcases hno with h | h
  · have hb : (e.status == 429) = false := beq_eq_false_iff_ne.mpr h
    simp [computeDelay, hb]
  · simp [computeDelay, h, ite_self]

/-- In the 429-with-hint case the computed delay is the hint in
milliseconds plus its jitter, capped at 30000. -/
theorem computeDelay_hint (e : ReqError) (k : Nat) (r : ℚ) (ra : ℚ)
    (hs : e.status = 429) (hra : e.retryAfterSecs = some ra) :
    computeDelay e k r =
      min (ra * 1000 + ra * 1000 * (25 / 100) * (r * 2 - 1)) 30000 := by
  have hb : (e.status == 429) = true := by simp [hs]
  simp [computeDelay, hb, hra]

/-- A base delay plus its ±25% jitter stays within [3/4, 5/4] of the
base. -/
theorem jitter_bounds (b r : ℚ) (hb : 0 ≤ b) (hr0 : 0 ≤ r) (hr1 : r < 1) :
    3 / 4 * b ≤ b + b * (25 / 100) * (r * 2 - 1) ∧
      b + b * (25 / 100) * (r * 2 - 1) ≤ 5 / 4 * b := by
  constructor <;> nlinarith

/-- C6 (confirmed): in the retry loop, for every retryable failure
without an explicit retry hint, the delay slept after attempt `k` lies
within ±25% of the nominal `1000 · 2^k` milliseconds and never exceeds
30000 milliseconds, and retries stop after at most 5 total attempts. -/
theorem claim_C6_backoff {T : Type} (fn : Nat → Attempt T) (rand : Nat → ℚ)
    (hr : ∀ i, 0 ≤ rand i ∧ rand i < 1) :
    (notionRequest fn rand).attemptsMade ≤ 5 ∧
    ∀ k e d, (k, e, d) ∈ (notionRequest fn rand).sleeps →
      e.status ≠ 429 ∨ e.retryAfterSecs = none →
      |d - 1000 * 2 ^ k| ≤ 25 / 100 * (1000 * 2 ^ k) ∧ d ≤ 30000 := by
  have hgo := notionRequestGo_spec fn rand MAX_RETRIES 0
  constructor
  · simpa [MAX_RETRIES] using hgo.1
  · intro k e d hmem hno
    obtain ⟨hd, hk⟩ := hgo.2 k e d hmem
    subst hd
    rw [computeDelay_noHint e k (rand k) hno]
    have hbpos : (0:ℚ) ≤ 1000 * 2 ^ k := by positivity
    have hble : (1000:ℚ) * 2 ^ k ≤ 8000 := by
      have hk3 : k ≤ 3 := by simp [MAX_RETRIES] at hk; omega
      have h2 : (2:ℚ) ^ k ≤ 2 ^ 3 := pow_le_pow_right₀ (by norm_num) hk3
      nlinarith
    obtain ⟨hj1, hj2⟩ := jitter_bounds (1000 * 2 ^ k) (rand k) hbpos (hr k).1 (hr k).2
    have hcap : 1000 * 2 ^ k + 1000 * 2 ^ k * (25 / 100) * (rand k * 2 - 1) ≤ 30000 := by
      nlinarith
    rw [min_eq_left hcap]
    refine ⟨?_, hcap⟩
    rw [abs_le]
    constructor <;> nlinarith

/-- C6 witness: a run with five consecutive 500 responses and zero-jitter
randomness makes 5 attempts, and its second sleep of 2000 ms is within
±25% of the nominal 2000 ms. -/
theorem claim_C6_backoff_witness :
    (notionRequest fnServer randHalf).attemptsMade ≤ 5 ∧
    (|(2000:ℚ) - 1000 * 2 ^ 1| ≤ 25 / 100 * (1000 * 2 ^ 1) ∧ (2000:ℚ) ≤ 30000) := by
  have h := claim_C6_backoff fnServer randHalf (fun i => by norm_num [randHalf])
  refine ⟨h.1, h.2 1 ⟨500, none⟩ 2000 ?_ (Or.inl (by norm_num))⟩
  have hs : (notionRequest fnServer randHalf).sleeps =
      [(0, ⟨500, none⟩, 1000), (1, ⟨500, none⟩, 2000),
       (2, ⟨500, none⟩, 4000), (3, ⟨500, none⟩, 8000)] := by
    norm_num [notionRequest, notionRequestGo, fnServer, randHalf, computeDelay,
      isRetryable, MAX_RETRIES]
  rw [hs]
  simp

/-- C1 (counterexample): a rate-limited failure with an explicit 1-second
retry hint and a `Math.random()` draw of 0 produces a delay of 750 ms,
not the hinted 1000 ms — the hint is not honored exactly because the
±25% jitter is applied to it as well. -/
theorem claim_C1_counterexample :
    computeDelay ⟨429, some 1⟩ 0 0 ≠ 1 * 1000 := by
  rw [computeDelay_hint ⟨429, some 1⟩ 0 0 1 rfl rfl]
  rw [min_eq_left (by norm_num)]
  norm_num

/-- C1 (amended, proved): for every sleep triggered by a rate-limited
failure carrying an explicit retry hint of `ra` seconds, the delay is the
hint converted to milliseconds perturbed by the same ±25% jitter applied
to all retry delays and capped at 30000 ms: it lies between
`min (3/4 · 1000·ra) 30000` and `min (5/4 · 1000·ra) 30000`. -/
theorem claim_C1_hint_jittered {T : Type} (fn : Nat → Attempt T) (rand : Nat → ℚ)
    (hr : ∀ i, 0 ≤ rand i ∧ rand i < 1) :
    ∀ k e d ra, (k, e, d) ∈ (notionRequest fn rand).sleeps →
      e.status = 429 → e.retryAfterSecs = some ra → 0 ≤ ra →
      min (3 / 4 * (ra * 1000)) 30000 ≤ d ∧ d ≤ min (5 / 4 * (ra * 1000)) 30000 := by
  intro k e d ra hmem hs hra h0
  obtain ⟨hd, _⟩ := (notionRequestGo_spec fn rand MAX_RETRIES 0).2 k e d hmem
  subst hd
  rw [computeDelay_hint e k (rand k) ra hs hra]
  obtain ⟨hj1, hj2⟩ :=
    jitter_bounds (ra * 1000) (rand k) (by nlinarith) (hr k).1 (hr k).2
  exact ⟨min_le_min hj1 le_rfl, min_le_min hj2 le_rfl⟩

/-- C1 witness: a run whose first attempt is rate-limited with a 2-second
hint and zero-jitter randomness sleeps 2000 ms, within the amended
bounds. -/
theorem claim_C1_hint_jittered_witness :
    min ((3:ℚ) / 4 * (2 * 1000)) 30000 ≤ 2000 ∧
      (2000:ℚ) ≤ min (5 / 4 * (2 * 1000)) 30000 := by
  have h := claim_C1_hint_jittered fnHint randHalf (fun i => by norm_num [randHalf])
  refine h 0 ⟨429, some 2⟩ 2000 2 ?_ rfl rfl (by norm_num)
  have hs : (notionRequest fnHint randHalf).sleeps = [(0, ⟨429, some 2⟩, 2000)] := by
    norm_num [notionRequest, notionRequestGo, fnHint, randHalf, computeDelay,
      isRetryable, MAX_RETRIES]
  rw [hs]
  simp

/-! ## Theorems: identifier normalizer -/

/-- A hex character is not a dash. -/
theorem hexChar_ne_dash {c : Char} (h : isHexChar c = true) : c ≠ '-' := by
  intro he
  subst he
  simp [isHexChar] at h

/-- A hex character is not whitespace. -/
theorem hexChar_not_ws {c : Char} (h : isHexChar c = true) :
    c.isWhitespace = false := by
  rw [Bool.eq_false_iff]
  intro hw
  simp only [Char.isWhitespace, Bool.or_eq_true, decide_eq_true_eq] at hw
  rcases hw with ((hw | hw) | hw) | hw <;> subst hw <;> exact absurd h (by decide)

/-- Every character of a formatted UUID is a character of the raw hex or a
dash. -/
theorem mem_formatUuid {c : Char} {hex : List Char} (h : c ∈ formatUuid hex) :
    c ∈ hex ∨ c = '-' := by
  unfold formatUuid at h
  rcases List.mem_append.mp h with h | h
  case inr =>
    rcases List.mem_cons.mp h with h | h
    · exact Or.inr h
    · exact Or.inl (List.drop_subset _ _ (List.take_subset _ _ h))
  rcases List.mem_append.mp h with h | h
  case inr =>
    rcases List.mem_cons.mp h with h | h
    · exact Or.inr h
    · exact Or.inl (List.drop_subset _ _ (List.take_subset _ _ h))
  rcases List.mem_append.mp h with h | h
  case inr =>
    rcases List.mem_cons.mp h with h | h
    · exact Or.inr h
    · exact Or.inl (List.drop_subset _ _ (List.take_subset _ _ h))
  rcases List.mem_append.mp h with h | h
  case inr =>
    rcases List.mem_cons.mp h with h | h
    · exact Or.inr h
    · exact Or.inl (List.drop_subset _ _ (List.take_subset _ _ h))
  exact Or.inl (List.take_subset _ _ h)

/-- Lemma: `dropWhile` is the identity when no element satisfies the predicate. -/
theorem dropWhile_eq_self_of (p : Char → Bool) (l : List Char)
    (h : ∀ c ∈ l, p c = false) : l.dropWhile p = l := by
  cases l with
  | nil => rfl
  | cons a l => simp [List.dropWhile_cons, h a (List.mem_cons_self a l)]

/-- Lemma: `trimChars` is the identity on whitespace-free strings. -/
theorem trimChars_eq_self (l : List Char) (h : ∀ c ∈ l, c.isWhitespace = false) :
    trimChars l = l := by
  unfold trimChars
  rw [dropWhile_eq_self_of _ l h,
    dropWhile_eq_self_of _ l.reverse (fun c hc => h c (List.mem_reverse.mp hc)),
    List.reverse_reverse]

/-- Removing the dashes from a formatted UUID recovers the 32 raw hex
characters, in order. -/
theorem stripDashes_formatUuid (hex : List Char) (hlen : hex.length = 32)
    (hall : hex.all isHexChar = true) :
    stripDashes (formatUuid hex) = hex := by
  have hseg : ∀ l : List Char, (∀ c ∈ l, c ∈ hex) →
      List.filter (fun c => decide (c ≠ '-')) l = l := by
    intro l hl
    refine List.filter_eq_self.mpr fun a ha => ?_
    have := hexChar_ne_dash (List.all_eq_true.mp hall a (hl a ha))
    simpa using this
  have hA : ∀ l m : List Char, stripDashes (l ++ m) = stripDashes l ++ stripDashes m := by
    intro l m; simp [stripDashes]
  have hC : ∀ m : List Char, stripDashes ('-' :: m) = stripDashes m := by
    intro m; simp [stripDashes]
  have e0 : stripDashes (hex.take 8) = hex.take 8 :=
    hseg _ (fun c hc => List.take_subset _ _ hc)
  have e1 : stripDashes ((hex.drop 8).take 4) = (hex.drop 8).take 4 :=
    hseg _ (fun c hc => List.drop_subset _ _ (List.take_subset _ _ hc))
  have e2 : stripDashes ((hex.drop 12).take 4) = (hex.drop 12).take 4 :=
    hseg _ (fun c hc => List.drop_subset _ _ (List.take_subset _ _ hc))
  have e3 : stripDashes ((hex.drop 16).take 4) = (hex.drop 16).take 4 :=
    hseg _ (fun c hc => List.drop_subset _ _ (List.take_subset _ _ hc))
  have e4 : stripDashes ((hex.drop 20).take 12) = (hex.drop 20).take 12 :=
    hseg _ (fun c hc => List.drop_subset _ _ (List.take_subset _ _ hc))
  unfold formatUuid
  rw [hA, hA, hA, hA, hC, hC, hC, hC, e0, e1, e2, e3, e4]
  have h1 : (hex.drop 20).take 12 = hex.drop 20 :=
    List.take_of_length_le (by simp [hlen])
  have h2 : (hex.drop 16).take 4 ++ hex.drop 20 = hex.drop 16 := by
    have : (hex.drop 16).drop 4 = hex.drop 20 := by
      rw [List.drop_drop]
    rw [← this, List.take_append_drop]
  have h3 : (hex.drop 12).take 4 ++ hex.drop 16 = hex.drop 12 := by
    have : (hex.drop 12).drop 4 = hex.drop 16 := by
      rw [List.drop_drop]
    rw [← this, List.take_append_drop]
  have h4 : (hex.drop 8).take 4 ++ hex.drop 12 = hex.drop 8 := by
    have : (hex.drop 8).drop 4 = hex.drop 12 := by
      rw [List.drop_drop]
    rw [← this, List.take_append_drop]
  rw [List.append_assoc, List.append_assoc, List.append_assoc,
    h1, h2, h3, h4, List.take_append_drop]

/-- C9 (confirmed): every input the identifier normalizer accepts yields
a dashed UUID: 36 characters shaped `formatUuid hex` for exactly the 32
hex digits `hex` the code extracted (for a non-URL input these are the
input's own digits after trimming and dash removal, in order), whose
dash-free characters are exactly `hex`; and the normalizer is idempotent
on its own output. -/
theorem claim_C9_normalizeId (input out : List Char)
    (h : normalizeNotionId input = some out) :
    (∃ hex : List Char, hex.length = 32 ∧ hex.all isHexChar = true ∧
        out = formatUuid hex ∧ stripDashes out = hex ∧
        ("http".data.isPrefixOf (trimChars input) = false →
          hex = stripDashes (trimChars input))) ∧
    out.length = 36 ∧
    normalizeNotionId out = some out := by
  obtain ⟨hex, hhex, hout, hsrc⟩ :
      ∃ hex, isHex32 hex = true ∧ out = formatUuid hex ∧
        ("http".data.isPrefixOf (trimChars input) = false →
          hex = stripDashes (trimChars input)) := by
    simp only [normalizeNotionId] at h
    by_cases hp : "http".data.isPrefixOf (trimChars input) = true
    · rw [if_pos hp] at h
      cases hf : findHexMatch (trimChars input) with
      | none => rw [hf] at h; cases h
      | some m =>
        rw [hf] at h
        dsimp only at h
        by_cases hv : isHex32 (stripDashes m) = true
        · rw [if_pos hv] at h
          injection h with h
          exact ⟨stripDashes m, hv, h.symm, fun hc => by rw [hp] at hc; cases hc⟩
        · rw [if_neg hv] at h; cases h
    · rw [if_neg hp] at h
      dsimp only at h
      by_cases hv : isHex32 (stripDashes (trimChars input)) = true
      · rw [if_pos hv] at h
        injection h with h
        exact ⟨_, hv, h.symm, fun _ => rfl⟩
      · rw [if_neg hv] at h; cases h
  simp only [isHex32, Bool.and_eq_true, beq_iff_eq] at hhex
  obtain ⟨hlen, hall⟩ := hhex
  have hstrip : stripDashes out = hex := hout ▸ stripDashes_formatUuid hex hlen hall
  refine ⟨⟨hex, hlen, hall, hout, hstrip, hsrc⟩, ?_, ?_⟩
  · subst hout
    simp [formatUuid, List.length_take, List.length_drop, hlen]
  · have hmem : ∀ c ∈ out, c ∈ hex ∨ c = '-' := fun c hc =>
      mem_formatUuid (hout ▸ hc)
    have hws : ∀ c ∈ out, c.isWhitespace = false := by
      intro c hc
      rcases hmem c hc with hm | hm
      · exact hexChar_not_ws (List.all_eq_true.mp hall c hm)
      · subst hm; rfl
    have htrim : trimChars out = out := trimChars_eq_self out hws
    have hnohttp : "http".data.isPrefixOf out = false := by
      rw [Bool.eq_false_iff]
      intro hpre
      rw [List.isPrefixOf_iff_prefix] at hpre
      obtain ⟨t, ht⟩ := hpre
      obtain ⟨c0, c1, rest, hhex2⟩ : ∃ c0 c1 rest, hex = c0 :: c1 :: rest := by
        cases hex with
        | nil => simp at hlen
        | cons a l =>
          cases l with
          | nil => simp at hlen
          | cons b l => exact ⟨a, b, l, rfl⟩
      rw [hout, hhex2] at ht
      simp only [formatUuid, List.take_succ_cons, List.cons_append,
        String.data] at ht
      have hc1 : c1 = 't' := by
        have h' := ht.symm
        injection h' with _ h2
        injection h2 with h3 _
      have : isHexChar c1 = true :=
        List.all_eq_true.mp hall c1 (by rw [hhex2]; simp)
      rw [hc1] at this
      simp [isHexChar] at this
    simp only [normalizeNotionId, htrim, hnohttp, Bool.false_eq_true, if_false,
      hstrip]
    rw [if_pos (by simp [isHex32, hlen, hall]), hout]

/-- C9 witness: the raw 32-hex id normalizes to its dashed UUID form, the
output has the claimed shape, and re-normalizing it is the identity. -/
theorem claim_C9_normalizeId_witness :
    (∃ hex : List Char, hex.length = 32 ∧ hex.all isHexChar = true ∧
        "01234567-89ab-cdef-0123-456789abcdef".data = formatUuid hex ∧
        stripDashes "01234567-89ab-cdef-0123-456789abcdef".data = hex ∧
        ("http".data.isPrefixOf (trimChars rawId32) = false →
          hex = stripDashes (trimChars rawId32))) ∧
    "01234567-89ab-cdef-0123-456789abcdef".data.length = 36 ∧
    normalizeNotionId "01234567-89ab-cdef-0123-456789abcdef".data =
      some "01234567-89ab-cdef-0123-456789abcdef".data :=
  claim_C9_normalizeId rawId32 "01234567-89ab-cdef-0123-456789abcdef".data (by decide)

/-! ## Theorems: deletion marking and reconciliation -/

/-- Lemma: `containsSeq` decides contiguous-subsequence containment. -/
theorem containsSeq_iff (hay pat : List Char) :
    containsSeq hay pat = true ↔ pat <:+: hay := by
  unfold containsSeq
  rw [List.any_eq_true]
  constructor
  · rintro ⟨i, _, hp⟩
    rw [List.isPrefixOf_iff_prefix] at hp
    obtain ⟨t, ht⟩ := hp
    exact ⟨hay.take i, t, by rw [List.append_assoc, ht, List.take_append_drop]⟩
  · rintro ⟨s, t, hst⟩
    refine ⟨s.length, List.mem_range.mpr ?_, ?_⟩
    · rw [← hst]
      simp only [List.length_append]
      omega
    · rw [List.isPrefixOf_iff_prefix]
      refine ⟨t, ?_⟩
      rw [← hst, List.append_assoc, List.drop_left]

/-- Lemma: `markAsDeleted` always leaves the removal flag present in its
output. -/
theorem deletedFlag_infix_mark (c : List Char) :
    deletedFlag <:+: markAsDeleted c := by
  unfold markAsDeleted
  by_cases h1 : containsSeq c deletedFlag = true
  · rw [if_pos h1]
    exact (containsSeq_iff c deletedFlag).mp h1
  · rw [if_neg h1]
    by_cases h2 : "---\n".data.isPrefixOf c = true
    · rw [if_pos h2]
      cases h3 : indexOfFrom c "\n---".data 3 with
      | some endIdx =>
        refine ⟨c.take endIdx ++ ['\n'], c.drop endIdx, ?_⟩
        have hdec : "\nnotion-deleted: true".data = '\n' :: deletedFlag := rfl
        rw [hdec]
        simp
      | none =>
        refine ⟨"---\n".data, "\n---\n".data ++ c, ?_⟩
        have hdec : "---\nnotion-deleted: true\n---\n".data =
            "---\n".data ++ deletedFlag ++ "\n---\n".data := rfl
        rw [hdec]
        simp
    · rw [if_neg h2]
      refine ⟨"---\n".data, "\n---\n".data ++ c, ?_⟩
      have hdec : "---\nnotion-deleted: true\n---\n".data =
          "---\n".data ++ deletedFlag ++ "\n---\n".data := rfl
      rw [hdec]
      simp

/-- Lemma: `markAsDeleted` is the identity on content already carrying the
flag. -/
theorem markAsDeleted_noop {c : List Char} (h : deletedFlag <:+: c) :
    markAsDeleted c = c := by
  unfold markAsDeleted
  rw [if_pos ((containsSeq_iff c deletedFlag).mpr h)]

/-- The reconciliation loop maps every file in place: untouched when its
id was processed, `markAsDeleted` otherwise; the count is the number of
unprocessed ids. -/
theorem reconcileDeletions_spec (fs : List (String × List Char)) (pids : List String) :
    reconcileDeletions fs pids =
      (fs.map (fun p => if pids.contains p.1 then p else (p.1, markAsDeleted p.2)),
       (fs.filter (fun p => !pids.contains p.1)).length) := by
  induction fs with
  | nil => rfl
  | cons p rest ih =>
    obtain ⟨id, content⟩ := p
    simp only [reconcileDeletions, ih, List.filter_cons, List.map_cons]
    cases hc : pids.contains id <;> simp [hc]

/-- C3 (confirmed): in the refresh workflow's reconciliation pass, every
scanned local record whose remote id is absent from the fetched row set
has its content rewritten in place by `markAsDeleted` (which always
leaves the removal flag present), no record is ever removed from the
list, records whose id was fetched are untouched, and the marking is
idempotent — content already carrying the flag is returned unchanged. -/
theorem claim_C3_removal_marking (env : RefreshEnv) :
    ((refreshDatabaseModel env).reconciledFiles =
       (scanLocalFiles env.files).map (fun p =>
         if (env.entries.map (fun e => e.id)).contains p.1 then (p.1, p.2.content)
         else (p.1, markAsDeleted p.2.content))) ∧
    (∀ c : List Char, deletedFlag <:+: markAsDeleted c) ∧
    (∀ c : List Char, deletedFlag <:+: c → markAsDeleted c = c) ∧
    (∀ c : List Char, markAsDeleted (markAsDeleted c) = markAsDeleted c) := by
  refine ⟨?_, deletedFlag_infix_mark, fun c h => markAsDeleted_noop h,
    fun c => markAsDeleted_noop (deletedFlag_infix_mark c)⟩
  simp only [refreshDatabaseModel, reconcileDeletions_spec, List.map_map]
  rfl

/-- C3 witness: content consisting of just the flag is left unchanged,
and marking is idempotent on empty content. -/
theorem claim_C3_removal_marking_witness :
    markAsDeleted deletedFlag = deletedFlag ∧
    markAsDeleted (markAsDeleted []) = markAsDeleted [] :=
  ⟨(claim_C3_removal_marking envR).2.2.1 deletedFlag ⟨[], [], by simp⟩,
   (claim_C3_removal_marking envR).2.2.2 []⟩

/-! ## Theorems: diff pass, per-row isolation, count invariant -/

/-- The diff loop returns the stale rows in fetch order as a filter, and
the skipped count as the number of non-stale rows. -/
theorem diffPass_spec (lf : List (String × LocalFile)) (l : List Entry) :
    diffPass lf l =
      (l.filter (isStaleEntry lf), (l.filter (fun e => !isStaleEntry lf e)).length) := by
  induction l with
  | nil => rfl
  | cons e rest ih =>
    simp only [diffPass, ih, List.filter_cons]
    cases hs : isStaleEntry lf e <;> simp [hs]

/-- The import loop's counts and error list, row by row: each row
contributes according to its own write outcome, independently of the
other rows. -/
theorem processEntries_spec (write : Entry → Except String WriteStatus) (l : List Entry) :
    processEntries write l =
      (l.countP (fun e => match write e with | .ok .created => true | _ => false),
       l.countP (fun e => match write e with | .ok .updated => true | _ => false),
       l.countP (fun e => match write e with | .error _ => true | _ => false),
       l.filterMap (fun e => match write e with
         | .error msg => some ("Entry " ++ e.id ++ ": " ++ msg)
         | .ok _ => none)) := by
  induction l with
  | nil => rfl
  | cons e rest ih =>
    simp only [processEntries, ih, List.countP_cons, List.filterMap_cons]
    cases hw : write e with
    | error msg => simp [hw]
    | ok st => cases st <;> simp [hw]

/-- Every row is written as created, updated, or failed — the three
counts sum to the number of rows. -/
theorem processEntries_counts (write : Entry → Except String WriteStatus) (l : List Entry) :
    l.countP (fun e => match write e with | .ok .created => true | _ => false) +
      l.countP (fun e => match write e with | .ok .updated => true | _ => false) +
      l.countP (fun e => match write e with | .error _ => true | _ => false) = l.length := by
  induction l with
  | nil => rfl
  | cons e rest ih =>
    simp only [List.countP_cons, List.length_cons]
    cases hw : write e with
    | error m => simp [hw]; omega
    | ok st => cases st <;> simp [hw] <;> omega

/-- A filter and its negation partition a list's length. -/
theorem length_filter_add_length_filter_not (p : Entry → Bool) (l : List Entry) :
    (l.filter p).length + (l.filter (fun e => !p e)).length = l.length := by
  induction l with
  | nil => rfl
  | cons e rest ih =>
    simp only [List.filter_cons]
    cases hp : p e <;> simp [hp] <;> omega

/-- C2 (confirmed): a fetched row is classified stale iff no local record
with its remote id exists, or the stored `notion-last-edited` timestamp
is absent, or it differs from the row's `last_edited_time` (assuming the
remote timestamp is non-empty, as Notion timestamps always are); the
stale list is exactly the stale-filtered rows in fetch order, a row whose
stored timestamp matches exactly is counted skipped, and only stale rows
are ever passed to the writer. -/
theorem claim_C2_diff (env : RefreshEnv) (e : Entry) (he : e.lastEditedTime ≠ "") :
    (isStaleEntry (scanLocalFiles env.files) e = true ↔
      mapGet (scanLocalFiles env.files) e.id = none ∨
      (∃ f, mapGet (scanLocalFiles env.files) e.id = some f ∧
        (f.storedEdited = none ∨
         ∃ s, f.storedEdited = some s ∧ s ≠ e.lastEditedTime))) ∧
    (diffPass (scanLocalFiles env.files) env.entries).1 =
      env.entries.filter (isStaleEntry (scanLocalFiles env.files)) ∧
    (diffPass (scanLocalFiles env.files) env.entries).2 =
      (env.entries.filter (fun x => !isStaleEntry (scanLocalFiles env.files) x)).length ∧
    (refreshDatabaseModel env).skipped =
      (diffPass (scanLocalFiles env.files) env.entries).2 ∧
    (refreshDatabaseModel env).writtenIds =
      ((diffPass (scanLocalFiles env.files) env.entries).1).map (fun x => x.id) := by
  refine ⟨?_, ?_, ?_, ?_, ?_⟩
  · cases hm : mapGet (scanLocalFiles env.files) e.id with
    | none => simp [isStaleEntry, hm]
    | some f =>
      cases hs : f.storedEdited with
      | none => simp [isStaleEntry, hm, hs, isFalsyStr]
      | some s =>
        have hL : isStaleEntry (scanLocalFiles env.files) e = true ↔
            (s = "" ∨ s ≠ e.lastEditedTime) := by
          simp [isStaleEntry, hm, hs, isFalsyStr]
        rw [hL]
        constructor
        · intro hor
          have hne : s ≠ e.lastEditedTime := by
            rcases hor with rfl | h
            · exact Ne.symm he
            · exact h
          exact Or.inr ⟨f, rfl, Or.inr ⟨s, hs, hne⟩⟩
        · rintro (hnone | ⟨f', hf', hor⟩)
          · cases hnone
          · injection hf' with hf'
            subst hf'
            rcases hor with hnone | ⟨s', hs', hne⟩
            · rw [hs] at hnone; cases hnone
            · rw [hs] at hs'
              injection hs' with hs'
              subst hs'
              exact Or.inr hne
  · rw [diffPass_spec]
  · rw [diffPass_spec]
  · simp [refreshDatabaseModel]
  · simp [refreshDatabaseModel]

/-- C2 witness: in `envR`, row `p2` (whose stored timestamp differs) is
classified stale, and the model's skipped count matches the diff pass. -/
theorem claim_C2_diff_witness :
    (isStaleEntry (scanLocalFiles envR.files) ⟨"p2", "2024-02-02T00:00:00.000Z"⟩ = true ↔
      mapGet (scanLocalFiles envR.files) (Entry.id ⟨"p2", "2024-02-02T00:00:00.000Z"⟩) = none ∨
      (∃ f, mapGet (scanLocalFiles envR.files) (Entry.id ⟨"p2", "2024-02-02T00:00:00.000Z"⟩) = some f ∧
        (f.storedEdited = none ∨
         ∃ s, f.storedEdited = some s ∧
           s ≠ Entry.lastEditedTime ⟨"p2", "2024-02-02T00:00:00.000Z"⟩))) ∧
    (refreshDatabaseModel envR).skipped =
      (diffPass (scanLocalFiles envR.files) envR.entries).2 := by
  have h := claim_C2_diff envR ⟨"p2", "2024-02-02T00:00:00.000Z"⟩ (by decide)
  exact ⟨h.1, h.2.2.2.1⟩

/-- C10 (confirmed): every refresh result satisfies
`created + updated + failed + skipped = total` where `total` is the
number of fetched rows, and `deleted` equals the number of scanned local
records whose id did not appear among the fetched rows. -/
theorem claim_C10_count_invariant (env : RefreshEnv) :
    (refreshDatabaseModel env).created + (refreshDatabaseModel env).updated +
        (refreshDatabaseModel env).failed + (refreshDatabaseModel env).skipped =
      (refreshDatabaseModel env).total ∧
    (refreshDatabaseModel env).deleted =
      ((scanLocalFiles env.files).filter
        (fun p => !(env.entries.map (fun e => e.id)).contains p.1)).length := by
  constructor
  · simp only [refreshDatabaseModel, diffPass_spec, processEntries_spec]
    have hc := processEntries_counts env.write
      (env.entries.filter (isStaleEntry (scanLocalFiles env.files)))
    have hp := length_filter_add_length_filter_not
      (isStaleEntry (scanLocalFiles env.files)) env.entries
    omega
  · simp only [refreshDatabaseModel, reconcileDeletions_spec]
    rw [List.filter_map, List.length_map]
    rfl

/-- C8 (confirmed): in both workflows a per-row write error is caught at
the per-row boundary: it is recorded as `Entry (id): (message)`, counted
in `failed`, and every other row still contributes its own outcome — the
counts and error list are pointwise functions of each row's own write
result, the refresh loop still attempts exactly the stale rows in order,
and the fresh import still returns a normal (ok) result. -/
theorem claim_C8_per_row_isolation (env : RefreshEnv) (fenv : FreshEnv) (r : FreshResult)
    (hok : (freshDatabaseImportModel fenv).1 = Except.ok r) :
    ((refreshDatabaseModel env).failed =
        (diffPass (scanLocalFiles env.files) env.entries).1.countP
          (fun e => match env.write e with | .error _ => true | _ => false) ∧
      (refreshDatabaseModel env).errors =
        (diffPass (scanLocalFiles env.files) env.entries).1.filterMap
          (fun e => match env.write e with
            | .error msg => some ("Entry " ++ e.id ++ ": " ++ msg)
            | .ok _ => none) ∧
      (refreshDatabaseModel env).created =
        (diffPass (scanLocalFiles env.files) env.entries).1.countP
          (fun e => match env.write e with | .ok .created => true | _ => false) ∧
      (refreshDatabaseModel env).updated =
        (diffPass (scanLocalFiles env.files) env.entries).1.countP
          (fun e => match env.write e with | .ok .updated => true | _ => false) ∧
      (refreshDatabaseModel env).writtenIds =
        (diffPass (scanLocalFiles env.files) env.entries).1.map (fun e => e.id)) ∧
    (r.failed = fenv.entries.countP
        (fun e => match fenv.write e with | .error _ => true | _ => false) ∧
      r.errors = fenv.entries.filterMap
        (fun e => match fenv.write e with
          | .error msg => some ("Entry " ++ e.id ++ ": " ++ msg)
          | .ok _ => none)) := by
  constructor
  · refine ⟨?_, ?_, ?_, ?_, ?_⟩ <;>
      simp [refreshDatabaseModel, processEntries_spec]
  · cases hscan : scanForExistingSync fenv.vaultFiles fenv.databaseId with
    | some f =>
      simp only [freshDatabaseImportModel, hscan] at hok
      cases hok
    | none =>
      cases hds : fenv.dataSources with
      | nil =>
        simp only [freshDatabaseImportModel, hscan, hds] at hok
        cases hok
      | cons a l =>
        simp only [freshDatabaseImportModel, hscan, hds, processEntries_spec] at hok
        rw [Except.ok.injEq] at hok
        subst hok
        exact ⟨rfl, rfl⟩

/-- C8 witness: in `envFOk` the failing row `p1` is recorded and counted
while `p2` is still created and the run returns ok; in `envR` the stale
rows are attempted in order despite `p2`'s write failing. -/
theorem claim_C8_per_row_isolation_witness :
    (rFOk.failed = envFOk.entries.countP
        (fun e => match envFOk.write e with | .error _ => true | _ => false) ∧
      rFOk.errors = envFOk.entries.filterMap
        (fun e => match envFOk.write e with
          | .error msg => some ("Entry " ++ e.id ++ ": " ++ msg)
          | .ok _ => none)) ∧
    (refreshDatabaseModel envR).writtenIds =
      (diffPass (scanLocalFiles envR.files) envR.entries).1.map (fun e => e.id) := by
  have h := claim_C8_per_row_isolation envR envFOk rFOk (by rfl)
  exact ⟨h.2, h.1.2.2.2.2⟩

/-! ## Theorems: fresh-import conflict check -/

/-- C7 (corrected/confirmed shape): the fresh import aborts with the
descriptive conflict error as soon as some vault file carries the target
database id (given that files have non-empty parent folder paths, as in
Obsidian), with an effect trace containing only the initial database
retrieval — no row query, folder creation, base-file write or row write;
when no vault file carries the id and a data source exists, the run
returns a normal result. -/
theorem claim_C7_conflict_abort (env : FreshEnv)
    (hp : ∀ f ∈ env.vaultFiles, f.notionDatabaseId = some env.databaseId →
      ∃ p, f.parentPath = some p ∧ p ≠ "") :
    ((∃ f ∈ env.vaultFiles, f.notionDatabaseId = some env.databaseId) →
      (∃ folder, (freshDatabaseImportModel env).1 =
        .error ("Already synced in folder: " ++ folder ++ ". Use Re-sync.")) ∧
      (freshDatabaseImportModel env).2 = [.retrieveDatabase] ∧
      Effect.queryRows ∉ (freshDatabaseImportModel env).2 ∧
      (∀ p, Effect.createFolder p ∉ (freshDatabaseImportModel env).2) ∧
      (∀ p, Effect.writeBaseFile p ∉ (freshDatabaseImportModel env).2) ∧
      (∀ i, Effect.writeRow i ∉ (freshDatabaseImportModel env).2)) ∧
    ((∀ f ∈ env.vaultFiles, f.notionDatabaseId ≠ some env.databaseId) →
      ∀ ds rest, env.dataSources = ds :: rest →
        ∃ res, (freshDatabaseImportModel env).1 = Except.ok res) := by
  constructor
  · rintro ⟨f, hf, hfid⟩
    cases hfind : env.vaultFiles.find? (fun g => g.notionDatabaseId == some env.databaseId) with
    | none =>
      exfalso
      have := List.find?_eq_none.mp hfind f hf
      simp [hfid] at this
    | some f₀ =>
      have hmem := List.mem_of_find?_eq_some hfind
      have hpred := List.find?_some hfind
      rw [beq_iff_eq] at hpred
      obtain ⟨p, hpp, hpne⟩ := hp f₀ hmem hpred
      have hbeq : (p == "") = false := beq_eq_false_iff_ne.mpr hpne
      have hscan : scanForExistingSync env.vaultFiles env.databaseId = some p := by
        simp only [scanForExistingSync, hfind, hpp, hbeq, Bool.false_eq_true,
          if_false]
      have h1 : (freshDatabaseImportModel env).1 =
          .error ("Already synced in folder: " ++ p ++ ". Use Re-sync.") := by
        simp only [freshDatabaseImportModel, hscan]
      have h2 : (freshDatabaseImportModel env).2 = [.retrieveDatabase] := by
        simp only [freshDatabaseImportModel, hscan]
      refine ⟨⟨p, h1⟩, h2, ?_, ?_, ?_, ?_⟩ <;> simp [h2]
  · intro hno ds rest hds
    have hfind : env.vaultFiles.find? (fun g => g.notionDatabaseId == some env.databaseId) = none := by
      rw [List.find?_eq_none]
      intro f hf
      simpa using hno f hf
    have hscan : scanForExistingSync env.vaultFiles env.databaseId = none := by
      simp only [scanForExistingSync, hfind]
    exact ⟨_, by simp only [freshDatabaseImportModel, hscan, hds]; rfl⟩

/-- C7 witness: `envFConflict` (whose vault already holds a file of the
target database) aborts with the conflict error and performs only the
initial retrieval. -/
theorem claim_C7_conflict_abort_witness :
    (∃ folder, (freshDatabaseImportModel envFConflict).1 =
      .error ("Already synced in folder: " ++ folder ++ ". Use Re-sync.")) ∧
    (freshDatabaseImportModel envFConflict).2 = [.retrieveDatabase] := by
  have h := claim_C7_conflict_abort envFConflict ?hp
  case hp =>
    rintro f hf heq
    simp only [envFConflict, List.mem_singleton] at hf
    subst hf
    exact ⟨"Notion/My DB", rfl, by decide⟩
  have h1 := h.1 ⟨⟨some "db1", some "Notion/My DB"⟩, by simp [envFConflict], rfl⟩
  exact ⟨h1.1, h1.2.1⟩

/-! ## Theorems: content tree converter -/

/-- Lemma: `takeWhile` over an append: the whole left part survives iff it all
satisfies the predicate. -/
theorem takeWhile_append_all (p : Block → Bool) (xs ys : List Block) :
    (xs ++ ys).takeWhile p =
      if xs.all p = true then xs ++ ys.takeWhile p else xs.takeWhile p := by
  induction xs with
  | nil => simp
  | cons x xs ih =>
    simp only [List.cons_append, List.takeWhile_cons, List.all_cons]
    cases hx : p x
    · simp
    · simp only [Bool.true_and, ih]
      by_cases hall : xs.all p = true
      · simp [hall]
      · simp [hall]

/-- Lemma: `takeWhile` is the identity on a list all of whose elements satisfy
the predicate. -/
theorem takeWhile_eq_self_of_all (p : Block → Bool) (xs : List Block)
    (h : xs.all p = true) : xs.takeWhile p = xs := by
  induction xs with
  | nil => rfl
  | cons x xs ih =>
    rw [List.all_cons, Bool.and_eq_true] at h
    simp [List.takeWhile_cons, h.1, ih h.2]

/-- Lemma: `all` is invariant under reversal. -/
theorem all_reverse_eq (p : Block → Bool) (l : List Block) :
    l.reverse.all p = l.all p := by
  rw [Bool.eq_iff_iff, List.all_eq_true, List.all_eq_true]
  constructor <;> intro h x hx
  · exact h x (List.mem_reverse.mpr hx)
  · exact h x (List.mem_reverse.mp hx)

/-- Unfolding `convertBlock` on a `numbered_list_item`. -/
theorem convertBlock_numbered (rt : List RichTextItem) (hc : Bool) (ch : List Block)
    (indentLevel ni : Nat) :
    convertBlock (.mk (.numberedListItem rt) hc ch) indentLevel ni =
      renderNumbered rt hc ch indentLevel ni := by
  simp [convertBlock, renderNumbered]

/-- The loop invariant of `convertBlocksToMarkdown`'s numbered counter:
starting the loop with counter value `k`, the line at position `i` (when
that block is a `numbered_list_item`) is rendered with counter `k + i` if
every earlier block in the slice is numbered, and with the
immediately-preceding-run counter otherwise. -/
theorem convertBlocksGo_numbered (indentLevel : Nat) (blocks : List Block) :
    ∀ (k i : Nat) (rt : List RichTextItem) (hc : Bool) (ch : List Block),
      blocks[i]? = some (.mk (.numberedListItem rt) hc ch) →
      (convertBlocksGo blocks indentLevel k)[i]? =
        some (renderNumbered rt hc ch indentLevel
          (if (blocks.take i).all isNumberedItem = true then k + i
           else runCounter blocks i)) := by
  induction blocks with
  | nil => intro k i rt hc ch h; simp at h
  | cons b rest ih =>
    intro k i rt hc ch h
    cases i with
    | zero =>
      rw [List.getElem?_cons_zero] at h
      injection h with h
      subst h
      have hb : isNumberedItem (.mk (.numberedListItem rt) hc ch) = true := rfl
      simp only [convertBlocksGo, hb, if_true, List.getElem?_cons_zero,
        List.take_zero, List.all_nil, Nat.add_zero, if_pos]
      rw [convertBlock_numbered]
    | succ n =>
      rw [List.getElem?_cons_succ] at h
      have hlt : n < rest.length := by
        by_contra hge
        rw [List.getElem?_eq_none (by omega)] at h
        cases h
      cases hb : isNumberedItem b
      · have hcnt :
            (if (rest.take n).all isNumberedItem = true then 1 + n
             else runCounter rest n) =
            (if ((b :: rest).take (n + 1)).all isNumberedItem = true then k + (n + 1)
             else runCounter (b :: rest) (n + 1)) := by
          have hcond : ((b :: rest).take (n + 1)).all isNumberedItem = false := by
            rw [List.take_succ_cons, List.all_cons, hb, Bool.false_and]
          rw [hcond]
          simp only [Bool.false_eq_true, if_false]
          unfold runCounter
          rw [List.take_succ_cons, List.reverse_cons, takeWhile_append_all,
            all_reverse_eq]
          by_cases hall : (rest.take n).all isNumberedItem = true
          · rw [if_pos hall, if_pos hall]
            rw [List.takeWhile_cons, hb]
            simp only [Bool.false_eq_true, if_false, List.append_nil,
              List.length_reverse, List.length_take]
            rw [min_eq_left (le_of_lt hlt)]
            omega
          · rw [if_neg hall, if_neg hall]
        simp only [convertBlocksGo, hb, Bool.false_eq_true, if_false,
          List.getElem?_cons_succ]
        rw [ih 1 n rt hc ch h, hcnt]
      · have hcnt :
            (if (rest.take n).all isNumberedItem = true then k + 1 + n
             else runCounter rest n) =
            (if ((b :: rest).take (n + 1)).all isNumberedItem = true then k + (n + 1)
             else runCounter (b :: rest) (n + 1)) := by
          have hcond : ((b :: rest).take (n + 1)).all isNumberedItem =
              (rest.take n).all isNumberedItem := by
            rw [List.take_succ_cons, List.all_cons, hb, Bool.true_and]
          rw [hcond]
          by_cases hall : (rest.take n).all isNumberedItem = true
          · rw [if_pos hall, if_pos hall]
            omega
          · rw [if_neg hall, if_neg hall]
            unfold runCounter
            rw [List.take_succ_cons, List.reverse_cons, takeWhile_append_all,
              all_reverse_eq, if_neg hall]
        simp only [convertBlocksGo, hb, if_true, List.getElem?_cons_succ]
        rw [ih (k + 1) n rt hc ch h, hcnt]

/-- C4 (confirmed): the numbered-list counter renders `n` for the `n`-th
node of an unbroken run of consecutive `numbered_list_item` blocks
(`runCounter` is one plus the length of the run immediately preceding
the position, so it resets to 1 as soon as any other block type
intervenes), and the sequence [numbered, numbered, bulleted, numbered]
renders as `1.`, `2.`, a bullet, `1.`. -/
theorem claim_C4_numbered_reset (blocks : List Block) (indentLevel i : Nat)
    (rt : List RichTextItem) (hc : Bool) (ch : List Block)
    (h : blocks[i]? = some (.mk (.numberedListItem rt) hc ch)) :
    (convertBlocksToMarkdown blocks indentLevel =
      String.intercalate "\n" (convertBlocksGo blocks indentLevel 1)) ∧
    (convertBlocksGo blocks indentLevel 1)[i]? =
      some (renderNumbered rt hc ch indentLevel (runCounter blocks i)) ∧
    convertBlocksToMarkdown resetBlocks 0 = "1. a\n2. b\n- c\n1. d" := by
  refine ⟨by simp [convertBlocksToMarkdown], ?_, ?_⟩
  · have hcnt :
        (if (blocks.take i).all isNumberedItem = true then 1 + i
         else runCounter blocks i) = runCounter blocks i := by
      by_cases hall : (blocks.take i).all isNumberedItem = true
      · rw [if_pos hall]
        unfold runCounter
        rw [takeWhile_eq_self_of_all _ _ (by rw [all_reverse_eq]; exact hall),
          List.length_reverse, List.length_take]
        have hlt : i < blocks.length := by
          by_contra hge
          rw [List.getElem?_eq_none (by omega)] at h
          cases h
        rw [min_eq_left (le_of_lt hlt)]
        omega
      · rw [if_neg hall]
    rw [convertBlocksGo_numbered indentLevel blocks 1 i rt hc ch h, hcnt]
  · simp only [resetBlocks, numBlock, bulBlock, mkPlainText,
      convertBlocksToMarkdown, convertBlocksGo, convertBlock, isNumberedItem,
      Block.ty, maybeConvertChildren, convertRichText, convertRichTextItem,
      strRepeat]
    rfl

/-- C4 witness: in the reset sequence, position 3 (the numbered item
right after the bullet) is rendered with counter 1. -/
theorem claim_C4_numbered_reset_witness :
    (convertBlocksGo resetBlocks 0 1)[3]? =
      some (renderNumbered [mkPlainText "d"] false [] 0 (runCounter resetBlocks 3)) :=
  (claim_C4_numbered_reset resetBlocks 0 3 [mkPlainText "d"] false [] rfl).2.1

/-- Past the first fetched row, the table loop renders each `table_row`
as one data line, in order. -/
theorem tableLines_tail (rows : List (List (List RichTextItem))) :
    ∀ i, i ≠ 0 →
      tableLines (rows.map rowBlock) i =
        rows.map (fun cells =>
          "| " ++ String.intercalate " | " (cells.map convertRichText) ++ " |") := by
  induction rows with
  | nil => intro i hi; rfl
  | cons cells rest ih =>
    intro i hi
    simp only [List.map_cons, tableLines, rowBlock, Block.ty]
    rw [if_neg hi, ih (i + 1) (by omega)]
    simp

/-- C5 (confirmed): a table whose fetched rows are `table_row`s renders
the first row's cells as a header line, then a separator line with
exactly one `---` cell per header cell, then the remaining rows in fetch
order; a table with zero fetched rows renders as the empty string; and
`convertBlock` dispatches a `table` block to exactly this conversion of
its fetched children. -/
theorem claim_C5_table_layout (first : List (List RichTextItem))
    (rest : List (List (List RichTextItem))) :
    convertTable ((first :: rest).map rowBlock) =
      String.intercalate "\n"
        (("| " ++ String.intercalate " | " (first.map convertRichText) ++ " |") ::
         ("| " ++ String.intercalate " | " (List.replicate first.length "---") ++ " |") ::
         rest.map (fun cells =>
           "| " ++ String.intercalate " | " (cells.map convertRichText) ++ " |")) ∧
    convertTable [] = "" ∧
    (∀ (hc : Bool) (ch : List Block) (ind ni : Nat),
      convertBlock (.mk .table hc ch) ind ni = convertTable ch) := by
  refine ⟨?_, rfl, ?_⟩
  · unfold convertTable
    rw [if_neg (by simp)]
    simp only [List.map_cons, tableLines, rowBlock, Block.ty, if_pos,
      List.cons_append, List.nil_append]
    rw [tableLines_tail rest 1 one_ne_zero]
    have hsep : (first.map convertRichText).map (fun _ => "---") =
        List.replicate first.length "---" := by
      rw [List.map_const', List.length_map]
    rw [hsep]
  · intro hc ch ind ni
    simp [convertBlock]

end NotionSync
